import Mathlib

/-!
Shallow embedding of the moderation core of `src/main.py` (BiliLiveShieldBot):
the sliding-window keyword-spam detector (`SpamDetector`), the mute lifecycle
manager (`PersistentUnbanManager`), the announcement throttler
(`AnnouncementManager`), the ban ranking query, and the event-handling glue of
`main` (`handle_spam` / `on_danmaku` / startup reconciliation).

Python `dict`s are modelled as insertion-ordered association lists,
`datetime`/`time.time()` values as integer timestamps in seconds
(`timedelta(hours=h)` becomes `h * 3600`), and the external Bilibili API calls
(`room.ban_user`, `room.unban_user`, `room.send_danmaku`) as boolean success
oracles; a call that raises in Python leaves the state exactly as the code
does (everything after the `await` is skipped).
-/

namespace BiliShield

/-- Lookup in an insertion-ordered association list with a default
(`dict.get(k, d)` / `defaultdict` read). -/
def lookupD {β : Type} (m : List (Nat × β)) (k : Nat) (d : β) : β :=
  match m with
  | [] => d
  | (k', v) :: rest => if k' = k then v else lookupD rest k d

/-- Assignment `dict[k] = v`: replace the value of an existing key in place, else append
the new key at the end (Python dicts preserve insertion order). -/
def dictSet {β : Type} (m : List (Nat × β)) (k : Nat) (v : β) : List (Nat × β) :=
  match m with
  | [] => [(k, v)]
  | (k', v') :: rest => if k' = k then (k', v) :: rest else (k', v') :: dictSet rest k v

/-- Update `dict[k] = f(dict.get(k, dflt))`: the `defaultdict` update pattern
`d[k] += x` used by the warning counters and the ranking aggregation. -/
def dictUpd {β : Type} (m : List (Nat × β)) (k : Nat) (f : β → β) (dflt : β) :
    List (Nat × β) :=
  match m with
  | [] => [(k, f dflt)]
  | (k', v) :: rest => if k' = k then (k', f v) :: rest else (k', v) :: dictUpd rest k f dflt

/-! ## SpamDetector (main.py lines 839-892, keyword-spam part) -/

/-- State of `SpamDetector` restricted to the keyword-spam fields the claims
are about.  `max_keyword` is the configured `关键词最大消息数` (default 3);
compiled regex patterns are modelled as boolean matchers on the message. -/
structure SpamDetector where
  time_window : Int
  max_keyword : Nat
  keyword_patterns : List (String → Bool)
  keyword_messages : List (Nat × List Int)
  keyword_warnings : List (Nat × Nat)

/-- The match loop of `check_keyword_spam`: true iff any compiled pattern
finds a match in the message. -/
def patternMatches (pats : List (String → Bool)) (msg : String) : Bool :=
  pats.any (fun p => p msg)

/-- The eviction loop
`while user_queue and current_time - user_queue[0] > self.time_window:
user_queue.popleft()`. -/
def evict (w : Int) (now : Int) : List Int → List Int
  | [] => []
  | t :: rest => if now - t > w then evict w now rest else t :: rest

/-- Model of `SpamDetector.check_keyword_spam(user_id, message)` at time `now`
(the Python code reads `time.time()`; here the clock is a parameter).
Returns the violation flag and the updated detector state. -/
def check_keyword_spam (d : SpamDetector) (uid : Nat) (msg : String) (now : Int) :
    Bool × SpamDetector :=
  if patternMatches d.keyword_patterns msg then
    let q := evict d.time_window now (lookupD d.keyword_messages uid []) ++ [now]
    let d' := { d with keyword_messages := dictSet d.keyword_messages uid q }
    if q.length > d.max_keyword - 1 then
      (true, { d' with keyword_warnings :=
                 dictUpd d.keyword_warnings uid (· + 1) 0 })
    else (false, d')
  else (false, d)

/-- Model of `SpamDetector.get_warning_count(user_id)`. -/
def get_warning_count (d : SpamDetector) (uid : Nat) : Nat :=
  lookupD d.keyword_warnings uid 0

/-- Model of `SpamDetector.clear_old_entries()` at time `now`: evict stale timestamps
from every tracked identity's queue in place; no key is ever removed. -/
def clear_old_entries (d : SpamDetector) (now : Int) : SpamDetector :=
  { d with keyword_messages :=
      d.keyword_messages.map (fun p => (p.1, evict d.time_window now p.2)) }

/-- A fresh `SpamDetector` as built by `SpamDetector.__init__` (empty
`defaultdict`s). -/
def initDetector (w : Int) (mk : Nat) (pats : List (String → Bool)) : SpamDetector :=
  ⟨w, mk, pats, [], []⟩

/-- Run a sequence of `check_keyword_spam` calls for one identity and one
message text at the given timestamps, collecting the violation flags. -/
def runKeyword (d : SpamDetector) (uid : Nat) (msg : String) : List Int → List Bool
  | [] => []
  | t :: ts =>
    let r := check_keyword_spam d uid msg t
    r.1 :: runKeyword r.2 uid msg ts

/-- Modelled from the spec's window property: processing events at the given
timestamps, a call at time `t` is a violation iff strictly more than
`mk - 1` of the events so far (this one included) lie inside the trailing
window `[t - w, t]`.  `past` accumulates the already-processed timestamps. -/
def specResults (w : Int) (mk : Nat) : List Int → List Int → List Bool
  | _, [] => []
  | past, t :: ts =>
    (decide (((past ++ [t]).filter (fun u => decide (t - u ≤ w))).length > mk - 1))
      :: specResults w mk (past ++ [t]) ts

/-! ## PersistentUnbanManager (main.py lines 22-175) -/

/-- One entry of `ban_history` as appended by `ban_user_with_auto_unban`;
`actual_unban_time`/`status` model the two late-bound keys added by
`check_and_unban` (`none` = key absent). -/
structure BanRecord where
  user_uid : Nat
  user_name : String
  ban_time : Int
  ban_hours : Int
  unban_time : Int
  reason : String
  actual_unban_time : Option Int
  status : Option String
deriving DecidableEq

/-- The mutable state of `PersistentUnbanManager`: `banned_users` maps uid to
`(name, ban_time)`; `ban_history` is the append-only log. -/
structure MgrState where
  banned_users : List (Nat × String × Int)
  ban_history : List BanRecord
deriving DecidableEq

/-- The fresh manager state (no persisted files). -/
def initMgr : MgrState := ⟨[], []⟩

/-- The `ban_record` dict literal appended by `ban_user_with_auto_unban`
(`unban_time` is the scheduled unban `ban_time + timedelta(hours=ban_hours)`). -/
def mkBanRecord (uid : Nat) (name : String) (now hours : Int) : BanRecord :=
  { user_uid := uid, user_name := name, ban_time := now, ban_hours := hours,
    unban_time := now + hours * 3600, reason := "关键词刷屏",
    actual_unban_time := none, status := none }

/-- Model of `PersistentUnbanManager.ban_user_with_auto_unban(user_uid, user_name)` at
time `now` with configured `ban_hours` (`禁言时长`).  The external
`room.ban_user` call happens first; `apiOk = false` models it raising, in
which case nothing after the `await` executes.  The second component logs the
mute API invocation made by this call (always exactly one attempt). -/
def ban_user_with_auto_unban (m : MgrState) (uid : Nat) (name : String) (now : Int)
    (ban_hours : Int) (apiOk : Bool) : MgrState × List Nat :=
  if apiOk then
    ({ banned_users := dictSet m.banned_users uid (name, now),
       ban_history := m.ban_history ++ [mkBanRecord uid name now ban_hours] },
     [uid])
  else (m, [uid])

/-- The two late-bound keys written when a mute is lifted:
`record["actual_unban_time"] = current_time.isoformat()` and
`record["status"] = "已解禁"`. -/
def closeRecord (r : BanRecord) (now : Int) : BanRecord :=
  { r with actual_unban_time := some now, status := some "已解禁" }

/-- The record-closing loop of `check_and_unban`: set `actual_unban_time` and
`status` on the first history record of this uid that lacks
`actual_unban_time`, then `break`. -/
def closeFirstOpen : List BanRecord → Nat → Int → List BanRecord
  | [], _, _ => []
  | r :: rest, uid, now =>
    if r.user_uid = uid ∧ r.actual_unban_time = none then
      closeRecord r now :: rest
    else r :: closeFirstOpen rest uid now

/-- One iteration of the unban loop for `uid`: if `room.unban_user` succeeds,
delete the uid from `banned_users` and close its open history record; if it
raises (`unbanOk uid = false`) the `except` branch leaves the state
untouched. -/
def unbanStep (now : Int) (unbanOk : Nat → Bool) (m : MgrState) (uid : Nat) : MgrState :=
  if unbanOk uid then
    { banned_users := m.banned_users.filter (fun p => p.1 != uid),
      ban_history := closeFirstOpen m.ban_history uid now }
  else m

/-- Model of `PersistentUnbanManager.check_and_unban()` at time `now` with configured
`ban_hours`; `unbanOk` is the success oracle for `room.unban_user`.  Returns
the new state and the list of uids whose unban was attempted (the
`users_to_unban` snapshot). -/
def check_and_unban (m : MgrState) (now : Int) (ban_hours : Int)
    (unbanOk : Nat → Bool) : MgrState × List Nat :=
  let todo := m.banned_users.filter (fun p => decide (now - p.2.2 ≥ ban_hours * 3600))
  (todo.foldl (fun st p => unbanStep now unbanOk st p.1) m, todo.map (·.1))

/-- Model of `PersistentUnbanManager.sync_banned_status()`: its body is identical to
`check_and_unban` (same snapshot condition, same unban loop), differing only
in log strings. -/
def sync_banned_status (m : MgrState) (now : Int) (ban_hours : Int)
    (unbanOk : Nat → Bool) : MgrState × List Nat :=
  check_and_unban m now ban_hours unbanOk

/-- Uids currently present in the active-mute index. -/
def bannedKeys (m : MgrState) : List Nat := m.banned_users.map (·.1)

/-- Number of open history records (lacking `actual_unban_time`) for a uid. -/
def openCount (hist : List BanRecord) (uid : Nat) : Nat :=
  (hist.filter (fun r => decide (r.user_uid = uid ∧ r.actual_unban_time = none))).length

/-! ## Mute-lifecycle operation sequences (for the index/history invariant) -/

/-- An observable mutation of the manager state: an `ApplyMute`
(`ban_user_with_auto_unban`) or an expiry sweep
(`check_and_unban` / `sync_banned_status`). -/
inductive MOp where
  | apply_mute (uid : Nat) (name : String) (now : Int) (hours : Int) (apiOk : Bool)
  | sweep (now : Int) (hours : Int) (unbanOk : Nat → Bool)

/-- Apply one operation to the manager state. -/
def applyMOp (m : MgrState) : MOp → MgrState
  | .apply_mute uid name now hours ok => (ban_user_with_auto_unban m uid name now hours ok).1
  | .sweep now hours unbanOk => (check_and_unban m now hours unbanOk).1

/-- Run a sequence of operations. -/
def runMOps (m : MgrState) (ops : List MOp) : MgrState := ops.foldl applyMOp m

/-- The sequence never applies a mute to an identity already in the
active-mute index (the guard the spec describes but the code lacks). -/
def guardedOps (m : MgrState) : List MOp → Bool
  | [] => true
  | op :: rest =>
    (match op with
     | .apply_mute uid _ _ _ _ => !(decide (uid ∈ bannedKeys m))
     | .sweep _ _ _ => true) && guardedOps (applyMOp m op) rest

/-- The index-history consistency invariant: every identity has exactly one
open history record when it is in the active-mute index and none
otherwise. -/
def MuteInv (m : MgrState) : Prop :=
  ∀ uid, openCount m.ban_history uid = if uid ∈ bannedKeys m then 1 else 0

/-! ## get_ban_ranking (main.py lines 150-175) -/

/-- One row of the list built by `get_ban_ranking`. -/
structure RankEntry where
  user_uid : Nat
  user_name : String
  ban_count : Nat
  total_hours : Int
  last_ban_time : Int
deriving DecidableEq

/-- The `ban_count` defaultdict after the aggregation loop
(`ban_count[uid] += 1`), keys in first-seen order. -/
def banCounts (hist : List BanRecord) : List (Nat × Nat) :=
  hist.foldl (fun m r => dictUpd m r.user_uid (· + 1) 0) []

/-- The `total_ban_hours` defaultdict (`total_ban_hours[uid] += ban_hours`). -/
def banHours (hist : List BanRecord) : List (Nat × Int) :=
  hist.foldl (fun m r => dictUpd m r.user_uid (· + r.ban_hours) 0) []

/-- The `last_ban_time` dict (`last_ban_time[uid] = record["ban_time"]`). -/
def lastBan (hist : List BanRecord) : List (Nat × Int) :=
  hist.foldl (fun m r => dictUpd m r.user_uid (fun _ => r.ban_time) 0) []

/-- The lookup `next((r["user_name"] for r in self.ban_history if r["user_uid"] == user_uid),
"未知用户")`. -/
def firstName (hist : List BanRecord) (uid : Nat) : String :=
  match hist.find? (fun r => r.user_uid == uid) with
  | some r => r.user_name
  | none => "未知用户"

/-- Stable insertion for a descending sort on `ban_count`: a later element is
placed after every earlier element of equal count, which is exactly the
guarantee of Python's stable `list.sort(key=..., reverse=True)`. -/
def insertDesc (x : RankEntry) : List RankEntry → List RankEntry
  | [] => [x]
  | y :: l => if y.ban_count ≤ x.ban_count then x :: y :: l else y :: insertDesc x l

/-- Stable descending sort on `ban_count`
(`ranking.sort(key=lambda x: x["ban_count"], reverse=True)`). -/
def sortDesc : List RankEntry → List RankEntry
  | [] => []
  | x :: l => insertDesc x (sortDesc l)

/-- One ranking row as appended in the `for user_uid, count in ban_count.items()`
loop. -/
def rankEntryOf (hist : List BanRecord) (p : Nat × Nat) : RankEntry :=
  { user_uid := p.1, user_name := firstName hist p.1, ban_count := p.2,
    total_hours := lookupD (banHours hist) p.1 0,
    last_ban_time := lookupD (lastBan hist) p.1 0 }

/-- Model of `PersistentUnbanManager.get_ban_ranking(limit)`. -/
def get_ban_ranking (hist : List BanRecord) (limit : Nat) : List RankEntry :=
  (sortDesc ((banCounts hist).map (rankEntryOf hist))).take limit

/-- Index of the first history record of a uid (first-seen position in the
append-only log; `hist.length` when the uid never occurs). -/
def firstIdx : List BanRecord → Nat → Nat
  | [], _ => 0
  | r :: rest, uid => if r.user_uid = uid then 0 else firstIdx rest uid + 1

/-- The uids of a history log in first-seen order, skipping those already in
`seen` — the key order a Python dict acquires during the aggregation loops. -/
def newKeys (seen : List Nat) : List BanRecord → List Nat
  | [] => []
  | r :: rest =>
    if r.user_uid ∈ seen then newKeys seen rest
    else r.user_uid :: newKeys (r.user_uid :: seen) rest

/-- The ranking scenario history: identity 1 ("U") contributes 3 records,
identity 2 ("V") contributes 5. -/
def exHist9 : List BanRecord :=
  [mkBanRecord 1 "U" 0 2, mkBanRecord 1 "U" 1 2, mkBanRecord 1 "U" 2 2,
   mkBanRecord 2 "V" 3 2, mkBanRecord 2 "V" 4 2, mkBanRecord 2 "V" 5 2,
   mkBanRecord 2 "V" 6 2, mkBanRecord 2 "V" 7 2]

/-! ## AnnouncementManager (main.py lines 894-920) -/

/-- State of `AnnouncementManager`: `last_announcement_time` starts at 0,
`announcement_interval` is the configured `公告发送间隔` (default 900). -/
structure AnnouncementManager where
  last_announcement_time : Int
  announcement_interval : Int
deriving DecidableEq

/-- Model of `AnnouncementManager.__init__` (for a given configured interval). -/
def initAnnouncement (interval : Int) : AnnouncementManager := ⟨0, interval⟩

/-- Model of `AnnouncementManager.send_regular_announcement()` at time `now`; `sendOk`
models whether `room.send_danmaku` succeeds (a raise skips the
`last_announcement_time` update).  The second component records whether a
send was attempted at all. -/
def send_regular_announcement (m : AnnouncementManager) (now : Int) (sendOk : Bool) :
    AnnouncementManager × Bool :=
  if now - m.last_announcement_time ≥ m.announcement_interval then
    if sendOk then ({ m with last_announcement_time := now }, true) else (m, true)
  else (m, false)

/-! ## Event-handling glue of `main` (lines 948-1045) -/

/-- The pieces of program state the danmaku handler touches: the detector,
the unban manager, and a log of mute API invocations. -/
structure Bot where
  det : SpamDetector
  mgr : MgrState
  muteCalls : List Nat

/-- Model of `handle_spam(user_uid, user_name)`: read the warning count and, at the
escalation threshold 2, invoke `ban_user_with_auto_unban`. -/
def handle_spam (cfgHours : Int) (banOk : Bool) (b : Bot) (uid : Nat) (name : String)
    (now : Int) : Bot :=
  if get_warning_count b.det uid ≥ 2 then
    let r := ban_user_with_auto_unban b.mgr uid name now cfgHours banOk
    { b with mgr := r.1, muteCalls := b.muteCalls ++ r.2 }
  else b

/-- The `DANMU_MSG` handler `on_danmaku`: run `check_keyword_spam` and, on a
violation, `handle_spam`. -/
def on_danmaku (cfgHours : Int) (banOk : Bool) (b : Bot) (uid : Nat) (name msg : String)
    (now : Int) : Bot :=
  let r := check_keyword_spam b.det uid msg now
  if r.1 then handle_spam cfgHours banOk { b with det := r.2 } uid name now
  else { b with det := r.2 }

/-- An inbound chat event `(identity, displayName, messageText, serverTimestamp)`. -/
structure Ev where
  uid : Nat
  name : String
  msg : String
  t : Int

/-- Process a list of inbound events through `on_danmaku`. -/
def runEvents (cfgHours : Int) (banOk : Bool) (b : Bot) (evs : List Ev) : Bot :=
  evs.foldl (fun b' e => on_danmaku cfgHours banOk b' e.uid e.name e.msg e.t) b

/-- The manager state after the startup reconciliation
(`await unban_manager.sync_banned_status()` in `main`). -/
def startup_mgr (m : MgrState) (now : Int) (hours : Int) (unbanOk : Nat → Bool) :
    MgrState :=
  (sync_banned_status m now hours unbanOk).1

/-- Startup order of `main`: the reconciliation pass runs to completion before
the `DANMU_MSG` handler is registered, so every event is processed against
the reconciled state. -/
def mainStartup (cfgHours : Int) (banOk : Bool) (unbanOk : Nat → Bool) (b : Bot)
    (now : Int) (evs : List Ev) : Bot :=
  runEvents cfgHours banOk { b with mgr := startup_mgr b.mgr now cfgHours unbanOk } evs

/-- Concrete detector configuration used by the escalation witness:
`max_keyword = 1` makes every matching message a violation. -/
def exBot0 : Bot := ⟨initDetector 10 1 [fun m => m == "喝"], initMgr, []⟩

/-- The bot state after the first violating message of identity 7. -/
def exBot1 : Bot := on_danmaku 2 true exBot0 7 "u" "喝" 0

/-- Concrete guarded operation sequence: mute identity 7, then an expiry
sweep that succeeds. -/
def exOps : List MOp := [.apply_mute 7 "u" 0 2 true, .sweep 8000 2 (fun _ => true)]

/-! ## Basic dictionary and eviction lemmas -/

lemma lookupD_dictUpd_self {β : Type} (m : List (Nat × β)) (k : Nat) (f : β → β) (d : β) :
    lookupD (dictUpd m k f d) k d = f (lookupD m k d) := by
  induction m with
  | nil => simp [dictUpd, lookupD]
  | cons p rest ih =>
    obtain ⟨k', v⟩ := p
    by_cases h : k' = k
    · simp [dictUpd, lookupD, h]
    · simp [dictUpd, lookupD, h, ih]

lemma lookupD_dictUpd_ne {β : Type} (m : List (Nat × β)) (k u : Nat) (f : β → β) (d : β)
    (h : u ≠ k) : lookupD (dictUpd m k f d) u d = lookupD m u d := by
  induction m with
  | nil => simp [dictUpd, lookupD, Ne.symm h]
  | cons p rest ih =>
    obtain ⟨k', v⟩ := p
    by_cases hk : k' = k
    · subst hk
      simp [dictUpd, lookupD, Ne.symm h]
    · simp only [dictUpd, if_neg hk, lookupD]
      by_cases hu : k' = u <;> simp [hu, ih]

lemma mem_keys_dictSet {β : Type} (m : List (Nat × β)) (k : Nat) (v : β) (u : Nat)
    (h : u ∈ m.map (·.1)) : u ∈ (dictSet m k v).map (·.1) := by
  induction m with
  | nil => simp at h
  | cons p rest ih =>
    obtain ⟨k', v'⟩ := p
    by_cases hk : k' = k
    · subst hk
      simpa [dictSet] using h
    · simp only [List.map_cons, List.mem_cons] at h
      simp only [dictSet, if_neg hk, List.map_cons, List.mem_cons]
      rcases h with h | h
      · exact Or.inl h
      · exact Or.inr (ih h)

lemma count_keys_dictSet {β : Type} (m : List (Nat × β)) (k : Nat) (v : β) :
    ((dictSet m k v).map (·.1)).count k = max ((m.map (·.1)).count k) 1 := by
  induction m with
  | nil => simp [dictSet]
  | cons p rest ih =>
    obtain ⟨k', v'⟩ := p
    by_cases hk : k' = k
    · subst hk
      simp [dictSet, List.count_cons]
    · simp [dictSet, hk, List.count_cons, ih]

lemma evict_eq_filter (w now : Int) (q : List Int) (hq : q.Pairwise (· ≤ ·)) :
    evict w now q = q.filter (fun t => decide (now - t ≤ w)) := by
  induction q with
  | nil => rfl
  | cons t rest ih =>
    rw [List.pairwise_cons] at hq
    by_cases h : now - t > w
    · have h' : (decide (now - t ≤ w)) = false := by
        simp only [decide_eq_false_iff_not]
        omega
      simp only [List.filter_cons, h', Bool.false_eq_true, if_false]
      rw [← ih hq.2]
      simp only [evict, if_pos h]
    · have h' : (decide (now - t ≤ w)) = true := by
        simp only [decide_eq_true_eq]
        omega
      simp only [List.filter_cons, h', if_true]
      have hrest : rest.filter (fun u => decide (now - u ≤ w)) = rest :=
        List.filter_eq_self.mpr (fun u hu => by
          simp only [decide_eq_true_eq]
          have := hq.1 u hu
          omega)
      rw [hrest]
      simp only [evict, if_neg h]

lemma openCount_append (h₁ h₂ : List BanRecord) (uid : Nat) :
    openCount (h₁ ++ h₂) uid = openCount h₁ uid + openCount h₂ uid := by
  simp [openCount, List.filter_append]

lemma ban_ok (m : MgrState) (uid : Nat) (name : String) (now hours : Int) :
    ban_user_with_auto_unban m uid name now hours true
      = ({ banned_users := dictSet m.banned_users uid (name, now),
           ban_history := m.ban_history ++ [mkBanRecord uid name now hours] },
         [uid]) := rfl

lemma ban_ok_history (m : MgrState) (uid : Nat) (name : String) (now hours : Int) :
    (ban_user_with_auto_unban m uid name now hours true).1.ban_history
      = m.ban_history ++ [mkBanRecord uid name now hours] := rfl

lemma ban_ok_keys (m : MgrState) (uid : Nat) (name : String) (now hours : Int) :
    bannedKeys (ban_user_with_auto_unban m uid name now hours true).1
      = (dictSet m.banned_users uid (name, now)).map (·.1) := rfl

lemma openCount_singleton_ne (r : BanRecord) (u : Nat) (h : r.user_uid ≠ u) :
    openCount [r] u = 0 := by
  have hc : ¬ (r.user_uid = u ∧ r.actual_unban_time = none) := fun hc => h hc.1
  simp [openCount, hc]

lemma openCount_singleton_open (r : BanRecord) (u : Nat) (h1 : r.user_uid = u)
    (h2 : r.actual_unban_time = none) : openCount [r] u = 1 := by
  simp [openCount, h1, h2]

/-! ## C10 — no pattern match leaves the detector untouched -/

/-- C10: for every message that matches none of the compiled trigger patterns,
`check_keyword_spam` returns `false` and leaves the detector state entirely
unchanged — no eviction, no appended timestamp, no warning increment. -/
theorem check_no_match_frame (d : SpamDetector) (uid : Nat) (msg : String) (now : Int)
    (h : patternMatches d.keyword_patterns msg = false) :
    check_keyword_spam d uid msg now = (false, d) := by
  simp [check_keyword_spam, h]

/-- Concrete instantiation of `check_no_match_frame`: the message "hello"
matches no pattern and the call is a complete no-op. -/
theorem check_no_match_frame_w :
    patternMatches [fun m => m == "喝"] "hello" = false ∧
    check_keyword_spam (initDetector 10 3 [fun m => m == "喝"]) 9 "hello" 5
      = (false, initDetector 10 3 [fun m => m == "喝"]) :=
  ⟨by decide, check_no_match_frame _ _ _ _ (by decide)⟩

/-! ## C8 — announcement throttler -/

/-- C8 counterexample: with the throttler's initial state
(`last_announcement_time = 0`) and interval 900, a call at `t = 0` does NOT
send (`0 - 0 ≥ 900` is false), contradicting the claimed scenario "a call at
t=0 sends and sets last_sent=0". -/
theorem announce_t0_no_send :
    send_regular_announcement (initAnnouncement 900) 0 true
      = (initAnnouncement 900, false) := by
  decide

/-- C8 (amended): `send_regular_announcement` attempts a send iff
`now - last_sent ≥ interval`; on success it sets `last_sent := now`, on
failure it leaves the state unchanged so the next tick retries.  With
interval 900 and the initial state, calls at t=0 and t=500 are no-ops, a call
at t=900 sends and sets `last_sent = 900`, t=1400 is a no-op, and t=1800
sends again. -/
theorem announce_throttle_contract :
    (∀ (m : AnnouncementManager) (now : Int) (sendOk : Bool),
      (now - m.last_announcement_time ≥ m.announcement_interval →
        (send_regular_announcement m now sendOk).2 = true ∧
        (sendOk = true →
          (send_regular_announcement m now sendOk).1
            = { m with last_announcement_time := now }) ∧
        (sendOk = false → (send_regular_announcement m now sendOk).1 = m)) ∧
      (now - m.last_announcement_time < m.announcement_interval →
        send_regular_announcement m now sendOk = (m, false))) ∧
    send_regular_announcement (initAnnouncement 900) 0 true = (initAnnouncement 900, false) ∧
    send_regular_announcement (initAnnouncement 900) 500 true = (initAnnouncement 900, false) ∧
    send_regular_announcement (initAnnouncement 900) 900 true = (⟨900, 900⟩, true) ∧
    send_regular_announcement ⟨900, 900⟩ 1400 true = (⟨900, 900⟩, false) ∧
    send_regular_announcement ⟨900, 900⟩ 1800 true = (⟨1800, 900⟩, true) := by
  refine ⟨?_, by decide, by decide, by decide, by decide, by decide⟩
  intro m now sendOk
  constructor
  · intro h
    cases sendOk <;> simp [send_regular_announcement, if_pos h]
  · intro h
    have h' : ¬ (now - m.last_announcement_time ≥ m.announcement_interval) := by omega
    simp [send_regular_announcement, if_neg h']

/-- Concrete instantiation of `announce_throttle_contract`: at t=900 from the
initial state the guard holds and the send is attempted. -/
theorem announce_throttle_contract_w :
    ((900 : Int) - (initAnnouncement 900).last_announcement_time
        ≥ (initAnnouncement 900).announcement_interval) ∧
    (send_regular_announcement (initAnnouncement 900) 900 true).2 = true :=
  ⟨by decide, ((announce_throttle_contract.1 (initAnnouncement 900) 900 true).1 (by decide)).1⟩

/-! ## C6 — periodic cleanup -/

/-- C6 counterexample: an identity whose only timestamp is stale is NOT
dropped by `clear_old_entries`; it stays tracked with an empty window,
contradicting "drops entirely every identity left with an empty window". -/
theorem cleanup_keeps_empty_identity :
    (clear_old_entries ⟨10, 3, [], [(5, [0])], []⟩ 100).keyword_messages = [(5, [])] ∧
    (5 : Nat) ∈ ((clear_old_entries ⟨10, 3, [], [(5, [0])], []⟩ 100).keyword_messages.map (·.1)) := by
  constructor
  · rfl
  · decide

/-- C6 (amended): `clear_old_entries` evicts the stale timestamps from every
tracked identity's window (for a sorted window exactly those older than
`time_window`), but never drops any identity — the tracked-key list is
unchanged — and `check_keyword_spam` never removes a key either, so no
operation removes an identity's rate-tracking state. -/
theorem cleanup_evicts_but_never_drops :
    (∀ (d : SpamDetector) (now : Int),
        (clear_old_entries d now).keyword_messages.map (·.1)
          = d.keyword_messages.map (·.1)) ∧
    (∀ (d : SpamDetector) (now : Int) (uid : Nat) (q : List Int),
        (uid, q) ∈ d.keyword_messages → q.Pairwise (· ≤ ·) →
        (uid, q.filter (fun t => decide (now - t ≤ d.time_window)))
          ∈ (clear_old_entries d now).keyword_messages) ∧
    (∀ (d : SpamDetector) (uid : Nat) (msg : String) (now : Int) (u : Nat),
        u ∈ d.keyword_messages.map (·.1) →
        u ∈ (check_keyword_spam d uid msg now).2.keyword_messages.map (·.1)) := by
  refine ⟨?_, ?_, ?_⟩
  · intro d now
    simp [clear_old_entries, List.map_map, Function.comp]
  · intro d now uid q hmem hq
    have : (fun p => (p.1, evict d.time_window now p.2)) (uid, q)
        ∈ (clear_old_entries d now).keyword_messages :=
      List.mem_map_of_mem _ hmem
    simpa [evict_eq_filter _ _ _ hq] using this
  · intro d uid msg now u hu
    simp only [check_keyword_spam]
    by_cases hm : patternMatches d.keyword_patterns msg = true
    · rw [if_pos hm]
      by_cases hl : (evict d.time_window now (lookupD d.keyword_messages uid []) ++ [now]).length
          > d.max_keyword - 1
      · rw [if_pos hl]
        exact mem_keys_dictSet _ _ _ _ hu
      · rw [if_neg hl]
        exact mem_keys_dictSet _ _ _ _ hu
    · rw [if_neg hm]
      exact hu

/-- Concrete instantiation of `cleanup_evicts_but_never_drops`: identity 5
keeps its key, the stale timestamp 0 is evicted and 95 survives, and a
message-handling call preserves the key. -/
theorem cleanup_evicts_but_never_drops_w :
    ((clear_old_entries ⟨10, 3, [], [(5, [0, 95])], []⟩ 100).keyword_messages.map (·.1)
        = [5]) ∧
    ((5, [(95 : Int)])
        ∈ (clear_old_entries ⟨10, 3, [], [(5, [0, 95])], []⟩ 100).keyword_messages) ∧
    (5 : Nat) ∈ (check_keyword_spam ⟨10, 3, [], [(5, [0, 95])], []⟩ 9 "x" 100).2.keyword_messages.map (·.1) :=
  ⟨cleanup_evicts_but_never_drops.1 _ 100,
   cleanup_evicts_but_never_drops.2.1 ⟨10, 3, [], [(5, [0, 95])], []⟩ 100 5 [0, 95]
     (by decide) (by decide),
   cleanup_evicts_but_never_drops.2.2 ⟨10, 3, [], [(5, [0, 95])], []⟩ 9 "x" 100 5 (by decide)⟩

/-! ## C2 — ApplyMute is not idempotent -/

/-- C2 counterexample: calling `ban_user_with_auto_unban` twice in immediate
succession for the same identity from the fresh state leaves TWO open history
entries and makes TWO external mute API invocations (the claim says exactly
one of each); only the active-mute index entry is overwritten. -/
theorem apply_mute_twice_cx :
    openCount (ban_user_with_auto_unban (ban_user_with_auto_unban initMgr 7 "u" 0 2 true).1
        7 "u" 0 2 true).1.ban_history 7 = 2 ∧
    bannedKeys (ban_user_with_auto_unban (ban_user_with_auto_unban initMgr 7 "u" 0 2 true).1
        7 "u" 0 2 true).1 = [7] ∧
    (ban_user_with_auto_unban initMgr 7 "u" 0 2 true).2 ++
      (ban_user_with_auto_unban (ban_user_with_auto_unban initMgr 7 "u" 0 2 true).1
        7 "u" 0 2 true).2 = [7, 7] := by
  refine ⟨by decide, by decide, by decide⟩

/-- C2 (amended): calling `ban_user_with_auto_unban` twice in immediate
succession for the same identity leaves exactly one entry for it in the
active-mute index (the second call overwrites the first), but appends two
history records — both open — and makes two external mute API invocations:
the call has no already-muted guard and is not a no-op. -/
theorem apply_mute_twice_overwrites (m : MgrState) (uid : Nat) (name : String)
    (t1 t2 h1 h2 : Int) (hk : (bannedKeys m).count uid ≤ 1) :
    (bannedKeys (ban_user_with_auto_unban
        (ban_user_with_auto_unban m uid name t1 h1 true).1 uid name t2 h2 true).1).count uid
      = 1 ∧
    (ban_user_with_auto_unban
        (ban_user_with_auto_unban m uid name t1 h1 true).1 uid name t2 h2 true).1.ban_history.length
      = m.ban_history.length + 2 ∧
    openCount (ban_user_with_auto_unban
        (ban_user_with_auto_unban m uid name t1 h1 true).1 uid name t2 h2 true).1.ban_history uid
      = openCount m.ban_history uid + 2 ∧
    (ban_user_with_auto_unban m uid name t1 h1 true).2 ++
      (ban_user_with_auto_unban (ban_user_with_auto_unban m uid name t1 h1 true).1
        uid name t2 h2 true).2 = [uid, uid] := by
  simp only [ban_ok, bannedKeys] at *
  refine ⟨?_, ?_, ?_, ?_⟩
  · rw [count_keys_dictSet, count_keys_dictSet]
    omega
  · simp
  · rw [openCount_append, openCount_append]
    simp [openCount, mkBanRecord]
  · rfl

/-- Concrete instantiation of `apply_mute_twice_overwrites` at the fresh
state. -/
theorem apply_mute_twice_overwrites_w :
    (bannedKeys initMgr).count 7 ≤ 1 ∧
    (bannedKeys (ban_user_with_auto_unban
        (ban_user_with_auto_unban initMgr 7 "u" 0 2 true).1 7 "u" 3 2 true).1).count 7 = 1 :=
  ⟨by decide, (apply_mute_twice_overwrites initMgr 7 "u" 0 3 2 2 (by decide)).1⟩

/-! ## C5 — warning counter and escalation -/

lemma ban_calls (m : MgrState) (uid : Nat) (name : String) (now hours : Int) (ok : Bool) :
    (ban_user_with_auto_unban m uid name now hours ok).2 = [uid] := by
  cases ok <;> rfl

lemma check_warncount_self (d : SpamDetector) (uid : Nat) (msg : String) (now : Int) :
    get_warning_count (check_keyword_spam d uid msg now).2 uid
      = get_warning_count d uid
        + (if (check_keyword_spam d uid msg now).1 = true then 1 else 0) := by
  by_cases hm : patternMatches d.keyword_patterns msg = true
  · by_cases hl : (evict d.time_window now (lookupD d.keyword_messages uid []) ++ [now]).length
        > d.max_keyword - 1
    · simp only [check_keyword_spam, if_pos hm, if_pos hl, get_warning_count]
      rw [lookupD_dictUpd_self]
      simp
    · simp only [check_keyword_spam, if_pos hm, if_neg hl, get_warning_count]
      simp
  · simp only [check_keyword_spam, if_neg hm, get_warning_count]
    simp

lemma check_warncount_ne (d : SpamDetector) (uid : Nat) (msg : String) (now : Int)
    (u : Nat) (hu : u ≠ uid) :
    get_warning_count (check_keyword_spam d uid msg now).2 u = get_warning_count d u := by
  by_cases hm : patternMatches d.keyword_patterns msg = true
  · by_cases hl : (evict d.time_window now (lookupD d.keyword_messages uid []) ++ [now]).length
        > d.max_keyword - 1
    · simp only [check_keyword_spam, if_pos hm, if_pos hl, get_warning_count]
      exact lookupD_dictUpd_ne _ _ _ _ _ hu
    · simp only [check_keyword_spam, if_pos hm, if_neg hl, get_warning_count]
  · simp only [check_keyword_spam, if_neg hm, get_warning_count]

/-- C5: the warning counter is incremented exactly once per `true` result of
`check_keyword_spam` (never per raw message, and never for another identity),
and with the escalation threshold 2 of `handle_spam`: a first violation for a
fresh identity yields count 1 and no mute attempt, while a violation hitting
an identity whose count is already 1 makes the handler invoke
`ban_user_with_auto_unban` for it. -/
theorem warning_escalation :
    (∀ (d : SpamDetector) (uid : Nat) (msg : String) (now : Int),
        get_warning_count (check_keyword_spam d uid msg now).2 uid
          = get_warning_count d uid
            + (if (check_keyword_spam d uid msg now).1 = true then 1 else 0) ∧
        (∀ u, u ≠ uid →
          get_warning_count (check_keyword_spam d uid msg now).2 u
            = get_warning_count d u)) ∧
    (∀ (cfgHours : Int) (banOk : Bool) (b : Bot) (uid : Nat) (name msg : String) (now : Int),
        get_warning_count b.det uid = 0 →
        (check_keyword_spam b.det uid msg now).1 = true →
        (on_danmaku cfgHours banOk b uid name msg now).mgr = b.mgr ∧
        (on_danmaku cfgHours banOk b uid name msg now).muteCalls = b.muteCalls ∧
        get_warning_count (on_danmaku cfgHours banOk b uid name msg now).det uid = 1) ∧
    (∀ (cfgHours : Int) (banOk : Bool) (b : Bot) (uid : Nat) (name msg : String) (now : Int),
        get_warning_count b.det uid = 1 →
        (check_keyword_spam b.det uid msg now).1 = true →
        (on_danmaku cfgHours banOk b uid name msg now).muteCalls = b.muteCalls ++ [uid]) := by
  refine ⟨fun d uid msg now => ⟨check_warncount_self d uid msg now,
    fun u hu => check_warncount_ne d uid msg now u hu⟩, ?_, ?_⟩
  · intro cfgHours banOk b uid name msg now h0 hc
    have hw : get_warning_count (check_keyword_spam b.det uid msg now).2 uid = 1 := by
      rw [check_warncount_self, h0, if_pos hc]
    have hlt : ¬ (get_warning_count (check_keyword_spam b.det uid msg now).2 uid ≥ 2) := by
      rw [hw]
      omega
    simp only [on_danmaku, if_pos hc, handle_spam]
    rw [if_neg hlt]
    exact ⟨rfl, rfl, hw⟩
  · intro cfgHours banOk b uid name msg now h1 hc
    have hw : get_warning_count (check_keyword_spam b.det uid msg now).2 uid = 2 := by
      rw [check_warncount_self, h1, if_pos hc]
    have hge : get_warning_count (check_keyword_spam b.det uid msg now).2 uid ≥ 2 := by
      rw [hw]
    simp only [on_danmaku, if_pos hc, handle_spam]
    rw [if_pos hge]
    simp [ban_calls]

/-- Concrete instantiation of `warning_escalation`: the first violation of
identity 7 attempts no mute, the second invokes the mute API for 7. -/
theorem warning_escalation_w :
    get_warning_count exBot0.det 7 = 0 ∧
    (check_keyword_spam exBot0.det 7 "喝" 0).1 = true ∧
    exBot1.muteCalls = exBot0.muteCalls ∧
    (on_danmaku 2 true exBot1 7 "u" "喝" 3).muteCalls = exBot1.muteCalls ++ [7] := by
  refine ⟨by decide, by decide, ?_, ?_⟩
  · exact (warning_escalation.2.1 2 true exBot0 7 "u" "喝" 0 (by decide) (by decide)).2.1
  · refine warning_escalation.2.2 2 true exBot1 7 "u" "喝" 3 ?_ (by decide)
    exact (warning_escalation.2.1 2 true exBot0 7 "u" "喝" 0 (by decide) (by decide)).2.2

/-! ## C7 — sweep failures are isolated and retried -/

lemma closeFirstOpen_filter_ne (h : List BanRecord) (v : Nat) (t : Int) (uid : Nat)
    (hne : v ≠ uid) :
    (closeFirstOpen h v t).filter (fun r => r.user_uid == uid)
      = h.filter (fun r => r.user_uid == uid) := by
  induction h with
  | nil => rfl
  | cons r rest ih =>
    by_cases hr : r.user_uid = v ∧ r.actual_unban_time = none
    · simp only [closeFirstOpen, if_pos hr]
      have hhead : ((closeRecord r t).user_uid == uid) = false := by
        simp [closeRecord, hr.1, hne]
      have hold : (r.user_uid == uid) = false := by
        simp [hr.1, hne]
      simp [List.filter_cons, hhead, hold]
    · simp only [closeFirstOpen, if_neg hr]
      simp [List.filter_cons, ih]

lemma filter_key_after_del (l : List (Nat × String × Int)) (v uid : Nat) (hne : v ≠ uid) :
    (l.filter (fun p => p.1 != v)).filter (fun p => p.1 == uid)
      = l.filter (fun p => p.1 == uid) := by
  induction l with
  | nil => rfl
  | cons p rest ih =>
    by_cases hp : p.1 = uid
    · have h1 : (p.1 != v) = true := by
        simp [hp, Ne.symm hne]
      simp [List.filter_cons, h1, hp, ih, Ne.symm hne]
    · by_cases h2 : p.1 = v <;> simp [List.filter_cons, hp, h2, ih, hne]

lemma unbanStep_preserves_failed (now : Int) (unbanOk : Nat → Bool) (uid v : Nat)
    (m : MgrState) (hfail : unbanOk uid = false) :
    ((unbanStep now unbanOk m v).banned_users.filter (fun p => p.1 == uid)
        = m.banned_users.filter (fun p => p.1 == uid)) ∧
    ((unbanStep now unbanOk m v).ban_history.filter (fun r => r.user_uid == uid)
        = m.ban_history.filter (fun r => r.user_uid == uid)) := by
  by_cases hok : unbanOk v = true
  · have hne : v ≠ uid := by
      intro h
      rw [h, hfail] at hok
      exact Bool.noConfusion hok
    simp only [unbanStep, if_pos hok]
    exact ⟨filter_key_after_del _ _ _ hne, closeFirstOpen_filter_ne _ _ _ _ hne⟩
  · simp [unbanStep, hok]

lemma fold_unban_preserves_failed (now : Int) (unbanOk : Nat → Bool) (uid : Nat)
    (hfail : unbanOk uid = false) :
    ∀ (todo : List (Nat × String × Int)) (m : MgrState),
      ((todo.foldl (fun st p => unbanStep now unbanOk st p.1) m).banned_users.filter
          (fun p => p.1 == uid) = m.banned_users.filter (fun p => p.1 == uid)) ∧
      ((todo.foldl (fun st p => unbanStep now unbanOk st p.1) m).ban_history.filter
          (fun r => r.user_uid == uid) = m.ban_history.filter (fun r => r.user_uid == uid))
  | [], m => ⟨rfl, rfl⟩
  | p :: rest, m => by
    simp only [List.foldl_cons]
    rcases fold_unban_preserves_failed now unbanOk uid hfail rest
      (unbanStep now unbanOk m p.1) with ⟨ihb, ihh⟩
    rcases unbanStep_preserves_failed now unbanOk uid p.1 m hfail with ⟨sb, sh⟩
    exact ⟨ihb.trans sb, ihh.trans sh⟩

/-- C7: during `check_and_unban`, a failed external unban for some identity
leaves that identity's index entry and history records exactly unchanged
(so the next sweep retries it), and every expired identity's unban is
attempted regardless of other identities' failures. -/
theorem sweep_failure_isolated (m : MgrState) (now hours : Int) (unbanOk : Nat → Bool)
    (uid : Nat) (name : String) (bt : Int)
    (hmem : (uid, name, bt) ∈ m.banned_users) (hexp : now - bt ≥ hours * 3600)
    (hfail : unbanOk uid = false) :
    uid ∈ (check_and_unban m now hours unbanOk).2 ∧
    ((check_and_unban m now hours unbanOk).1.banned_users.filter (fun p => p.1 == uid)
      = m.banned_users.filter (fun p => p.1 == uid)) ∧
    ((check_and_unban m now hours unbanOk).1.ban_history.filter (fun r => r.user_uid == uid)
      = m.ban_history.filter (fun r => r.user_uid == uid)) ∧
    (∀ (u : Nat) (n : String) (b : Int), (u, n, b) ∈ m.banned_users →
        now - b ≥ hours * 3600 → u ∈ (check_and_unban m now hours unbanOk).2) := by
  refine ⟨?_, ?_, ?_, ?_⟩
  · simp only [check_and_unban, List.mem_map]
    exact ⟨(uid, name, bt), List.mem_filter.mpr ⟨hmem, by simpa using hexp⟩, rfl⟩
  · exact (fold_unban_preserves_failed now unbanOk uid hfail _ m).1
  · exact (fold_unban_preserves_failed now unbanOk uid hfail _ m).2
  · intro u n b hm hb
    simp only [check_and_unban, List.mem_map]
    exact ⟨(u, n, b), List.mem_filter.mpr ⟨hm, by simpa using hb⟩, rfl⟩

/-- Concrete instantiation of `sweep_failure_isolated`: identity 5's unban
fails and is fully retained; identity 6 is attempted anyway. -/
theorem sweep_failure_isolated_w :
    ((5, "a", (0 : Int)) ∈ (⟨[(5, "a", 0), (6, "b", 100)],
        [⟨5, "a", 0, 2, 7200, "关键词刷屏", none, none⟩,
         ⟨6, "b", 100, 2, 7300, "关键词刷屏", none, none⟩]⟩ : MgrState).banned_users) ∧
    ((8000 : Int) - 0 ≥ 2 * 3600) ∧
    ((fun u => u != 5) 5) = false ∧
    5 ∈ (check_and_unban ⟨[(5, "a", 0), (6, "b", 100)],
        [⟨5, "a", 0, 2, 7200, "关键词刷屏", none, none⟩,
         ⟨6, "b", 100, 2, 7300, "关键词刷屏", none, none⟩]⟩ 8000 2 (fun u => u != 5)).2 ∧
    6 ∈ (check_and_unban ⟨[(5, "a", 0), (6, "b", 100)],
        [⟨5, "a", 0, 2, 7200, "关键词刷屏", none, none⟩,
         ⟨6, "b", 100, 2, 7300, "关键词刷屏", none, none⟩]⟩ 8000 2 (fun u => u != 5)).2 := by
  refine ⟨by decide, by decide, by decide, ?_, ?_⟩
  · exact (sweep_failure_isolated _ 8000 2 (fun u => u != 5) 5 "a" 0
      (by decide) (by decide) (by decide)).1
  · exact (sweep_failure_isolated _ 8000 2 (fun u => u != 5) 5 "a" 0
      (by decide) (by decide) (by decide)).2.2.2 6 "b" 100 (by decide) (by decide)

/-! ## C4 — startup reconciliation removes expired mutes before events -/

lemma not_mem_keys_filter_self (l : List (Nat × String × Int)) (uid : Nat) :
    uid ∉ (l.filter (fun p => p.1 != uid)).map (·.1) := by
  intro h
  rcases List.mem_map.mp h with ⟨p, hp, he⟩
  have h2 := (List.mem_filter.mp hp).2
  rw [he] at h2
  simp at h2

lemma unbanStep_keys_mono (now : Int) (unbanOk : Nat → Bool) (m : MgrState) (v uid : Nat)
    (h : uid ∉ m.banned_users.map (·.1)) :
    uid ∉ (unbanStep now unbanOk m v).banned_users.map (·.1) := by
  by_cases hok : unbanOk v = true
  · simp only [unbanStep, if_pos hok]
    intro hc
    rcases List.mem_map.mp hc with ⟨p, hp, he⟩
    exact h (List.mem_map.mpr ⟨p, (List.mem_filter.mp hp).1, he⟩)
  · simpa [unbanStep, hok] using h

lemma fold_unban_not_mem (now : Int) (unbanOk : Nat → Bool) (uid : Nat)
    (hok : unbanOk uid = true) :
    ∀ (todo : List (Nat × String × Int)) (m : MgrState),
      (uid ∈ todo.map (·.1) ∨ uid ∉ m.banned_users.map (·.1)) →
      uid ∉ (todo.foldl (fun st p => unbanStep now unbanOk st p.1) m).banned_users.map (·.1)
  | [], m, h => by
    rcases h with h | h
    · simp at h
    · simpa using h
  | p :: rest, m, h => by
    simp only [List.foldl_cons]
    apply fold_unban_not_mem now unbanOk uid hok rest
    rcases h with h | h
    · simp only [List.map_cons, List.mem_cons] at h
      rcases h with h | h
      · right
        subst h
        simp only [unbanStep, if_pos hok]
        exact not_mem_keys_filter_self _ _
      · exact Or.inl h
    · exact Or.inr (unbanStep_keys_mono now unbanOk m p.1 uid h)

/-- C4: the reconciliation pass (`sync_banned_status`, run by `main` before
the event handler is registered) selects every loaded active mute whose
`ban_time + hours*3600 ≤ now` and attempts its unban; when the external call
succeeds the identity is absent from the active-mute index in the state from
which all subsequent events are processed. -/
theorem startup_reconciliation (m : MgrState) (now hours : Int) (unbanOk : Nat → Bool)
    (uid : Nat) (name : String) (bt : Int)
    (hmem : (uid, name, bt) ∈ m.banned_users) (hexp : bt + hours * 3600 ≤ now) :
    uid ∈ (sync_banned_status m now hours unbanOk).2 ∧
    (unbanOk uid = true → uid ∉ bannedKeys (startup_mgr m now hours unbanOk)) ∧
    (∀ (banOk : Bool) (b : Bot) (evs : List Ev), b.mgr = m →
        mainStartup hours banOk unbanOk b now evs
          = runEvents hours banOk { b with mgr := startup_mgr m now hours unbanOk } evs) := by
  refine ⟨?_, ?_, ?_⟩
  · simp only [sync_banned_status, check_and_unban, List.mem_map]
    refine ⟨(uid, name, bt), List.mem_filter.mpr ⟨hmem, ?_⟩, rfl⟩
    simp only [decide_eq_true_eq]
    omega
  · intro hok
    simp only [startup_mgr, sync_banned_status, check_and_unban, bannedKeys]
    apply fold_unban_not_mem now unbanOk uid hok
    left
    simp only [List.mem_map]
    refine ⟨(uid, name, bt), List.mem_filter.mpr ⟨hmem, ?_⟩, rfl⟩
    simp only [decide_eq_true_eq]
    omega
  · intro banOk b evs hbm
    subst hbm
    rfl

/-- Concrete instantiation of `startup_reconciliation`: a persisted mute of
identity 5 whose scheduled unban time 7200 is in the past (now = 8000) is
attempted and removed before events are processed. -/
theorem startup_reconciliation_w :
    ((5, "a", (0 : Int)) ∈ (⟨[(5, "a", 0)],
        [⟨5, "a", 0, 2, 7200, "关键词刷屏", none, none⟩]⟩ : MgrState).banned_users) ∧
    ((0 : Int) + 2 * 3600 ≤ 8000) ∧
    5 ∈ (sync_banned_status ⟨[(5, "a", 0)],
        [⟨5, "a", 0, 2, 7200, "关键词刷屏", none, none⟩]⟩ 8000 2 (fun _ => true)).2 ∧
    5 ∉ bannedKeys (startup_mgr ⟨[(5, "a", 0)],
        [⟨5, "a", 0, 2, 7200, "关键词刷屏", none, none⟩]⟩ 8000 2 (fun _ => true)) := by
  refine ⟨by decide, by decide, ?_, ?_⟩
  · exact (startup_reconciliation _ 8000 2 (fun _ => true) 5 "a" 0 (by decide) (by decide)).1
  · exact (startup_reconciliation _ 8000 2 (fun _ => true) 5 "a" 0
      (by decide) (by decide)).2.1 rfl

/-! ## C3 — index ⇔ open-history invariant -/

lemma openCount_cons (r : BanRecord) (h : List BanRecord) (uid : Nat) :
    openCount (r :: h) uid
      = (if r.user_uid = uid ∧ r.actual_unban_time = none then 1 else 0)
        + openCount h uid := by
  by_cases hr : r.user_uid = uid ∧ r.actual_unban_time = none
  · simp [openCount, List.filter_cons, hr, Nat.add_comm]
  · simp [openCount, List.filter_cons, hr]

lemma closeFirstOpen_of_none (h : List BanRecord) (uid : Nat) (t : Int)
    (h0 : openCount h uid = 0) : closeFirstOpen h uid t = h := by
  induction h with
  | nil => rfl
  | cons r rest ih =>
    rw [openCount_cons] at h0
    by_cases hr : r.user_uid = uid ∧ r.actual_unban_time = none
    · rw [if_pos hr] at h0
      omega
    · rw [if_neg hr] at h0
      simp only [closeFirstOpen, if_neg hr]
      rw [ih (by omega)]

lemma closeFirstOpen_openCount_self (h : List BanRecord) (uid : Nat) (t : Int)
    (h1 : 1 ≤ openCount h uid) :
    openCount (closeFirstOpen h uid t) uid = openCount h uid - 1 := by
  induction h with
  | nil => simp [openCount] at h1
  | cons r rest ih =>
    by_cases hr : r.user_uid = uid ∧ r.actual_unban_time = none
    · simp only [closeFirstOpen, if_pos hr]
      have hclosed : ¬ ((closeRecord r t).user_uid = uid ∧
          (closeRecord r t).actual_unban_time = none) := by
        simp [closeRecord]
      rw [openCount_cons, if_neg hclosed, openCount_cons, if_pos hr]
      omega
    · have h1' : 1 ≤ openCount rest uid := by
        rw [openCount_cons, if_neg hr] at h1
        omega
      simp only [closeFirstOpen, if_neg hr]
      rw [openCount_cons, if_neg hr, openCount_cons, if_neg hr, ih h1']
      omega

lemma closeFirstOpen_openCount_ne (h : List BanRecord) (v : Nat) (t : Int) (u : Nat)
    (hne : u ≠ v) :
    openCount (closeFirstOpen h v t) u = openCount h u := by
  induction h with
  | nil => rfl
  | cons r rest ih =>
    by_cases hr : r.user_uid = v ∧ r.actual_unban_time = none
    · simp only [closeFirstOpen, if_pos hr]
      have h1 : ¬ (r.user_uid = u ∧ r.actual_unban_time = none) := by
        intro hc
        exact hne (by rw [← hc.1, hr.1])
      have h2 : ¬ ((closeRecord r t).user_uid = u ∧
          (closeRecord r t).actual_unban_time = none) := by
        simp [closeRecord]
      rw [openCount_cons, if_neg h2, openCount_cons, if_neg h1]
    · simp only [closeFirstOpen, if_neg hr]
      rw [openCount_cons, openCount_cons, ih]

lemma keys_dictSet_not_mem {β : Type} (m : List (Nat × β)) (k : Nat) (v : β)
    (h : k ∉ m.map (·.1)) :
    (dictSet m k v).map (·.1) = m.map (·.1) ++ [k] := by
  induction m with
  | nil => rfl
  | cons p rest ih =>
    obtain ⟨k', v'⟩ := p
    simp only [List.map_cons, List.mem_cons] at h
    push_neg at h
    have hk : ¬ (k' = k) := fun hh => h.1 hh.symm
    simp only [dictSet, if_neg hk, List.map_cons, List.cons_append]
    rw [ih h.2]

lemma mem_keys_filter_ne (l : List (Nat × String × Int)) (v u : Nat) (hne : u ≠ v) :
    u ∈ (l.filter (fun p => p.1 != v)).map (·.1) ↔ u ∈ l.map (·.1) := by
  constructor
  · intro h
    rcases List.mem_map.mp h with ⟨p, hp, he⟩
    exact List.mem_map.mpr ⟨p, (List.mem_filter.mp hp).1, he⟩
  · intro h
    rcases List.mem_map.mp h with ⟨p, hp, he⟩
    refine List.mem_map.mpr ⟨p, List.mem_filter.mpr ⟨hp, ?_⟩, he⟩
    rw [he]
    simp [hne]

lemma unbanStep_ok_banned (now : Int) (unbanOk : Nat → Bool) (m : MgrState) (v : Nat)
    (hok : unbanOk v = true) :
    (unbanStep now unbanOk m v).banned_users
      = m.banned_users.filter (fun p => p.1 != v) := by
  simp [unbanStep, hok]

lemma unbanStep_ok_history (now : Int) (unbanOk : Nat → Bool) (m : MgrState) (v : Nat)
    (hok : unbanOk v = true) :
    (unbanStep now unbanOk m v).ban_history = closeFirstOpen m.ban_history v now := by
  simp [unbanStep, hok]

lemma MuteInv_ban (m : MgrState) (uid : Nat) (name : String) (now hours : Int) (ok : Bool)
    (hInv : MuteInv m) (hg : uid ∉ bannedKeys m) :
    MuteInv (ban_user_with_auto_unban m uid name now hours ok).1 := by
  cases ok
  · rw [show (ban_user_with_auto_unban m uid name now hours false).1 = m from rfl]
    exact hInv
  · intro u
    have hg' : uid ∉ m.banned_users.map (·.1) := hg
    rw [ban_ok_history, openCount_append, ban_ok_keys,
      keys_dictSet_not_mem m.banned_users uid (name, now) hg']
    by_cases hu : u = uid
    · subst hu
      have h0 : openCount m.ban_history u = 0 := by
        rw [hInv u, if_neg hg]
      rw [h0, openCount_singleton_open (mkBanRecord u name now hours) u rfl rfl,
        if_pos (by simp)]
    · have hmemiff : u ∈ m.banned_users.map (·.1) ++ [uid] ↔ u ∈ bannedKeys m := by
        simp [bannedKeys, hu]
      rw [openCount_singleton_ne (mkBanRecord uid name now hours) u
          (by simpa [mkBanRecord] using Ne.symm hu),
        if_congr hmemiff rfl rfl, ← hInv u]
      omega

lemma MuteInv_unbanStep (now : Int) (unbanOk : Nat → Bool) (v : Nat) (m : MgrState)
    (hInv : MuteInv m) : MuteInv (unbanStep now unbanOk m v) := by
  by_cases hok : unbanOk v = true
  · intro u
    simp only [bannedKeys]
    rw [unbanStep_ok_history now unbanOk m v hok]
    simp only [unbanStep_ok_banned now unbanOk m v hok]
    by_cases hu : u = v
    · subst hu
      rw [if_neg (not_mem_keys_filter_self m.banned_users u)]
      by_cases hm : u ∈ bannedKeys m
      · have h1 : openCount m.ban_history u = 1 := by rw [hInv u, if_pos hm]
        rw [closeFirstOpen_openCount_self _ _ _ (by omega), h1]
      · have h0 : openCount m.ban_history u = 0 := by rw [hInv u, if_neg hm]
        rw [closeFirstOpen_of_none _ _ _ h0, h0]
    · rw [closeFirstOpen_openCount_ne _ _ _ _ hu, hInv u]
      exact if_congr ((mem_keys_filter_ne m.banned_users v u hu)).symm rfl rfl
  · rw [show unbanStep now unbanOk m v = m from by simp [unbanStep, hok]]
    exact hInv

lemma MuteInv_fold (now : Int) (unbanOk : Nat → Bool) :
    ∀ (todo : List (Nat × String × Int)) (m : MgrState), MuteInv m →
      MuteInv (todo.foldl (fun st p => unbanStep now unbanOk st p.1) m)
  | [], _, h => h
  | p :: rest, m, h => by
    simp only [List.foldl_cons]
    exact MuteInv_fold now unbanOk rest _ (MuteInv_unbanStep now unbanOk p.1 m h)

lemma MuteInv_run :
    ∀ (ops : List MOp) (m : MgrState), MuteInv m → guardedOps m ops = true →
      MuteInv (runMOps m ops)
  | [], _, h, _ => h
  | op :: rest, m, h, hg => by
    have hg' := hg
    simp only [guardedOps, Bool.and_eq_true] at hg'
    have hrest : guardedOps (applyMOp m op) rest = true := hg'.2
    have hstep : MuteInv (applyMOp m op) := by
      cases op with
      | apply_mute uid name now hours ok =>
        have hguard : uid ∉ bannedKeys m := by
          have := hg'.1
          simpa using this
        exact MuteInv_ban m uid name now hours ok h hguard
      | sweep now hours unbanOk =>
        simp only [applyMOp, check_and_unban]
        exact MuteInv_fold now unbanOk _ m h
    simpa only [runMOps, List.foldl_cons] using
      MuteInv_run rest (applyMOp m op) hstep hrest

/-- C3 counterexample: after two unguarded `ban_user_with_auto_unban` calls
for identity 7 (a sequence the code permits, e.g. two quick violations of an
already-muted user), the identity is in the active-mute index but has TWO
open history entries, not exactly one. -/
theorem mute_index_two_open_cx :
    7 ∈ bannedKeys (ban_user_with_auto_unban
        (ban_user_with_auto_unban initMgr 7 "u" 0 2 true).1 7 "u" 0 2 true).1 ∧
    openCount (ban_user_with_auto_unban
        (ban_user_with_auto_unban initMgr 7 "u" 0 2 true).1 7 "u" 0 2 true).1.ban_history 7
      = 2 := by
  exact ⟨by decide, by decide⟩

/-- C3 (amended): for every operation sequence from the fresh state in which
`ApplyMute` is only invoked for identities not already in the active-mute
index (and sweeps are unrestricted, with arbitrary per-identity unban
success), an identity is in `banned_users` iff it has exactly one open
`ban_history` record. -/
theorem mute_index_matches_open_history (ops : List MOp) (uid : Nat)
    (hg : guardedOps initMgr ops = true) :
    uid ∈ bannedKeys (runMOps initMgr ops) ↔
      openCount (runMOps initMgr ops).ban_history uid = 1 := by
  have hInv : MuteInv (runMOps initMgr ops) :=
    MuteInv_run ops initMgr (fun u => by simp [initMgr, openCount, bannedKeys]) hg
  constructor
  · intro h
    rw [hInv uid, if_pos h]
  · intro h
    by_contra hn
    rw [hInv uid, if_neg hn] at h
    omega

/-- Concrete instantiation of `mute_index_matches_open_history` at `exOps`. -/
theorem mute_index_matches_open_history_w :
    guardedOps initMgr exOps = true ∧
    (7 ∈ bannedKeys (runMOps initMgr exOps) ↔
      openCount (runMOps initMgr exOps).ban_history 7 = 1) :=
  ⟨by decide, mute_index_matches_open_history exOps 7 (by decide)⟩

/-! ## C1 — the sliding-window violation condition -/

lemma runKeyword_init (w : Int) (mk : Nat) (pats : List (String → Bool)) (uid : Nat)
    (msg : String) (hm : patternMatches pats msg = true) (ts : List Int) :
    runKeyword (initDetector w mk pats) uid msg ts
      = runKeyword ⟨w, mk, pats, [(uid, [])], []⟩ uid msg ts := by
  cases ts with
  | nil => rfl
  | cons t ts' =>
    have hstep : check_keyword_spam (initDetector w mk pats) uid msg t
        = check_keyword_spam ⟨w, mk, pats, [(uid, [])], []⟩ uid msg t := by
      simp only [check_keyword_spam, initDetector, hm, if_true]
      simp [lookupD, dictSet]
    simp only [runKeyword]
    rw [hstep]

lemma runKeyword_spec_aux (w : Int) (mk : Nat) (pats : List (String → Bool))
    (uid : Nat) (msg : String) (hm : patternMatches pats msg = true) (hw : 0 ≤ w) :
    ∀ (ts past : List Int) (m : Int) (wmap : List (Nat × Nat)),
      past.Pairwise (· ≤ ·) → (∀ u ∈ past, u ≤ m) →
      ts.Pairwise (· ≤ ·) → (∀ t ∈ ts, m ≤ t) →
      runKeyword ⟨w, mk, pats, [(uid, past.filter (fun u => decide (m - u ≤ w)))], wmap⟩
          uid msg ts
        = specResults w mk past ts
  | [], _, _, _, _, _, _, _ => rfl
  | t :: ts, past, m, wmap, hps, hpb, hts, htb => by
    rcases List.pairwise_cons.mp hts with ⟨hhead, htail⟩
    have htm : m ≤ t := htb t (List.mem_cons_self t ts)
    have hpf_sorted : (past.filter (fun u => decide (m - u ≤ w))).Pairwise (· ≤ ·) :=
      hps.sublist (List.filter_sublist past)
    have hq : evict w t (past.filter (fun u => decide (m - u ≤ w)))
        = past.filter (fun u => decide (t - u ≤ w)) := by
      rw [evict_eq_filter w t _ hpf_sorted, List.filter_filter]
      apply List.filter_congr
      intro u hu
      have hum := hpb u hu
      by_cases hc : t - u ≤ w
      · have hcm : m - u ≤ w := by omega
        simp [hc, hcm]
      · simp [hc]
    have hsing : (decide (t - t ≤ w)) = true := decide_eq_true (by omega)
    have hq2 : (past ++ [t]).filter (fun u => decide (t - u ≤ w))
        = past.filter (fun u => decide (t - u ≤ w)) ++ [t] := by
      rw [List.filter_append]
      congr 1
      rw [List.filter_cons, if_pos hsing, List.filter_nil]
    have hqfull : evict w t (past.filter (fun u => decide (m - u ≤ w))) ++ [t]
        = (past ++ [t]).filter (fun u => decide (t - u ≤ w)) := by
      rw [hq, hq2]
    have hcheck : check_keyword_spam
        ⟨w, mk, pats, [(uid, past.filter (fun u => decide (m - u ≤ w)))], wmap⟩ uid msg t
        = (decide ((((past ++ [t]).filter (fun u => decide (t - u ≤ w))).length > mk - 1)),
           ⟨w, mk, pats, [(uid, (past ++ [t]).filter (fun u => decide (t - u ≤ w)))],
            if (((past ++ [t]).filter (fun u => decide (t - u ≤ w))).length > mk - 1)
            then dictUpd wmap uid (· + 1) 0 else wmap⟩) := by
      simp only [check_keyword_spam, if_pos hm]
      have hlook : lookupD [(uid, past.filter (fun u => decide (m - u ≤ w)))] uid []
          = past.filter (fun u => decide (m - u ≤ w)) := by
        simp [lookupD]
      rw [hlook, hqfull]
      have hset : dictSet [(uid, past.filter (fun u => decide (m - u ≤ w)))] uid
          ((past ++ [t]).filter (fun u => decide (t - u ≤ w)))
          = [(uid, (past ++ [t]).filter (fun u => decide (t - u ≤ w)))] := by
        simp [dictSet]
      rw [hset]
      by_cases hl : ((past ++ [t]).filter (fun u => decide (t - u ≤ w))).length > mk - 1
      · rw [if_pos hl, if_pos hl, decide_eq_true hl]
      · rw [if_neg hl, if_neg hl, decide_eq_false hl]
    simp only [runKeyword, specResults]
    rw [hcheck]
    refine congrArg₂ List.cons rfl ?_
    have hpast' : (past ++ [t]).Pairwise (· ≤ ·) := by
      rw [List.pairwise_append]
      refine ⟨hps, by simp, ?_⟩
      intro u hu t' ht'
      simp only [List.mem_singleton] at ht'
      subst ht'
      exact le_trans (hpb u hu) htm
    have hpb' : ∀ u ∈ past ++ [t], u ≤ t := by
      intro u hu
      rcases List.mem_append.mp hu with h | h
      · exact le_trans (hpb u h) htm
      · simp only [List.mem_singleton] at h
        exact le_of_eq h
    exact runKeyword_spec_aux w mk pats uid msg hm hw ts (past ++ [t]) t _
      hpast' hpb' htail hhead

/-- C1 counterexample: with window 10 and `max_count` 3, matching events at
t = 0, 3, 6 yield `[false, false, true]` — the third event is ALREADY a
violation (3 matches ≥ max_count), not `[false, false, false]` as the claim's
scenario states. -/
theorem keyword_three_events_cx :
    runKeyword (initDetector 10 3 [fun m => m == "喝"]) 7 "喝" [0, 3, 6]
      = [false, false, true] ∧
    runKeyword (initDetector 10 3 [fun m => m == "喝"]) 7 "喝" [0, 3, 6]
      ≠ [false, false, false] := by
  exact ⟨by decide, by decide⟩

/-- C1 (amended): for every nondecreasing sequence of matching events of one
identity, starting from a fresh detector, call `i` reports a violation iff at
least `max_count` events (strictly more than `max_count - 1`, this one
included) lie inside the trailing `time_window` — `specResults` is exactly
that reference computation.  With window 10 and max_count 3, events at
t = 0, 3 are clean and the third at t = 6 (and a fourth at t = 8) violate. -/
theorem keyword_window_threshold (w : Int) (mk : Nat) (pats : List (String → Bool))
    (uid : Nat) (msg : String) (ts : List Int)
    (hm : patternMatches pats msg = true) (hw : 0 ≤ w)
    (hts : ts.Pairwise (· ≤ ·)) :
    runKeyword (initDetector w mk pats) uid msg ts = specResults w mk [] ts := by
  rw [runKeyword_init w mk pats uid msg hm]
  cases ts with
  | nil => rfl
  | cons t ts' =>
    rcases List.pairwise_cons.mp hts with ⟨hhead, htail⟩
    refine runKeyword_spec_aux w mk pats uid msg hm hw (t :: ts') [] t []
      (by simp) (by simp) hts ?_
    intro t' ht'
    rcases List.mem_cons.mp ht' with h | h
    · exact le_of_eq h.symm
    · exact hhead t' h

/-- Concrete instantiation of `keyword_window_threshold` on the corrected
scenario timestamps. -/
theorem keyword_window_threshold_w :
    patternMatches [fun m => m == "喝"] "喝" = true ∧
    ((0 : Int) ≤ 10) ∧
    List.Pairwise (· ≤ ·) [(0 : Int), 3, 6, 8] ∧
    runKeyword (initDetector 10 3 [fun m => m == "喝"]) 7 "喝" [0, 3, 6, 8]
      = specResults 10 3 [] [0, 3, 6, 8] :=
  ⟨by decide, by decide, by decide,
   keyword_window_threshold 10 3 [fun m => m == "喝"] 7 "喝" [0, 3, 6, 8]
     (by decide) (by decide) (by decide)⟩

/-! ## C9 — ban ranking: aggregation, ordering, stability -/

lemma newKeys_cons_mem (seen : List Nat) (r : BanRecord) (rest : List BanRecord)
    (h : r.user_uid ∈ seen) : newKeys seen (r :: rest) = newKeys seen rest := by
  simp only [newKeys]
  rw [if_pos h]

lemma newKeys_cons_not_mem (seen : List Nat) (r : BanRecord) (rest : List BanRecord)
    (h : r.user_uid ∉ seen) :
    newKeys seen (r :: rest) = r.user_uid :: newKeys (r.user_uid :: seen) rest := by
  simp only [newKeys]
  rw [if_neg h]

lemma newKeys_congr : ∀ (l : List BanRecord) (s₁ s₂ : List Nat),
    (∀ x, x ∈ s₁ ↔ x ∈ s₂) → newKeys s₁ l = newKeys s₂ l
  | [], _, _, _ => rfl
  | r :: rest, s₁, s₂, h => by
    by_cases hr : r.user_uid ∈ s₁
    · rw [newKeys_cons_mem _ _ _ hr, newKeys_cons_mem _ _ _ ((h _).mp hr)]
      exact newKeys_congr rest s₁ s₂ h
    · rw [newKeys_cons_not_mem _ _ _ hr,
        newKeys_cons_not_mem _ _ _ (fun hc => hr ((h _).mpr hc))]
      congr 1
      refine newKeys_congr rest _ _ ?_
      intro x
      constructor
      · intro hx
        rcases List.mem_cons.mp hx with h1 | h1
        · exact List.mem_cons.mpr (Or.inl h1)
        · exact List.mem_cons.mpr (Or.inr ((h x).mp h1))
      · intro hx
        rcases List.mem_cons.mp hx with h1 | h1
        · exact List.mem_cons.mpr (Or.inl h1)
        · exact List.mem_cons.mpr (Or.inr ((h x).mpr h1))

lemma mem_newKeys_not_seen : ∀ (l : List BanRecord) (seen : List Nat) (u : Nat),
    u ∈ newKeys seen l → u ∉ seen
  | [], _, _, h => by simp [newKeys] at h
  | r :: rest, seen, u, h => by
    by_cases hr : r.user_uid ∈ seen
    · rw [newKeys_cons_mem _ _ _ hr] at h
      exact mem_newKeys_not_seen rest seen u h
    · rw [newKeys_cons_not_mem _ _ _ hr] at h
      rcases List.mem_cons.mp h with h1 | h1
      · exact fun hc => hr (h1 ▸ hc)
      · have h2 := mem_newKeys_not_seen rest _ u h1
        intro hc
        exact h2 (List.mem_cons.mpr (Or.inr hc))

lemma newKeys_nodup : ∀ (l : List BanRecord) (seen : List Nat), (newKeys seen l).Nodup
  | [], _ => List.nodup_nil
  | r :: rest, seen => by
    by_cases hr : r.user_uid ∈ seen
    · rw [newKeys_cons_mem _ _ _ hr]
      exact newKeys_nodup rest seen
    · rw [newKeys_cons_not_mem _ _ _ hr]
      refine List.nodup_cons.mpr ⟨?_, newKeys_nodup rest _⟩
      intro hc
      exact (mem_newKeys_not_seen rest _ _ hc) (List.mem_cons_self _ _)

lemma newKeys_pairwise : ∀ (l : List BanRecord) (seen : List Nat),
    (newKeys seen l).Pairwise (fun u v => firstIdx l u < firstIdx l v)
  | [], _ => List.Pairwise.nil
  | r :: rest, seen => by
    by_cases hr : r.user_uid ∈ seen
    · rw [newKeys_cons_mem _ _ _ hr]
      refine List.Pairwise.imp_of_mem ?_ (newKeys_pairwise rest seen)
      intro a b ha hb hab
      have hna : r.user_uid ≠ a :=
        Ne.symm (fun hc => (mem_newKeys_not_seen rest seen a ha) (by rw [hc]; exact hr))
      have hnb : r.user_uid ≠ b :=
        Ne.symm (fun hc => (mem_newKeys_not_seen rest seen b hb) (by rw [hc]; exact hr))
      simp only [firstIdx, if_neg hna, if_neg hnb]
      omega
    · rw [newKeys_cons_not_mem _ _ _ hr]
      refine List.pairwise_cons.mpr ⟨?_, ?_⟩
      · intro v hv
        have hvne : r.user_uid ≠ v := Ne.symm (fun hc =>
          (mem_newKeys_not_seen rest _ v hv) (by rw [hc]; exact List.mem_cons_self _ _))
        simp only [firstIdx, eq_self_iff_true, if_true, if_neg hvne]
        omega
      · refine List.Pairwise.imp_of_mem ?_ (newKeys_pairwise rest (r.user_uid :: seen))
        intro a b ha hb hab
        have hna : r.user_uid ≠ a := Ne.symm (fun hc =>
          (mem_newKeys_not_seen rest _ a ha) (by rw [hc]; exact List.mem_cons_self _ _))
        have hnb : r.user_uid ≠ b := Ne.symm (fun hc =>
          (mem_newKeys_not_seen rest _ b hb) (by rw [hc]; exact List.mem_cons_self _ _))
        simp only [firstIdx, if_neg hna, if_neg hnb]
        omega

lemma dictUpd_keys_mem {β : Type} (m : List (Nat × β)) (k : Nat) (f : β → β) (d : β)
    (h : k ∈ m.map (·.1)) : (dictUpd m k f d).map (·.1) = m.map (·.1) := by
  induction m with
  | nil => simp at h
  | cons p rest ih =>
    obtain ⟨k', v⟩ := p
    by_cases hk : k' = k
    · simp [dictUpd, hk]
    · simp only [List.map_cons, List.mem_cons] at h
      rcases h with h1 | h1
      · exact absurd h1.symm hk
      · simp only [dictUpd, if_neg hk, List.map_cons]
        rw [ih h1]

lemma dictUpd_keys_new {β : Type} (m : List (Nat × β)) (k : Nat) (f : β → β) (d : β)
    (h : k ∉ m.map (·.1)) : (dictUpd m k f d).map (·.1) = m.map (·.1) ++ [k] := by
  induction m with
  | nil => rfl
  | cons p rest ih =>
    obtain ⟨k', v⟩ := p
    simp only [List.map_cons, List.mem_cons] at h
    push_neg at h
    have hk : ¬ (k' = k) := fun hh => h.1 hh.symm
    simp only [dictUpd, if_neg hk, List.map_cons, List.cons_append]
    rw [ih h.2]

lemma foldl_dictUpd_keys {β : Type} (g : BanRecord → β → β) (d : β) :
    ∀ (l : List BanRecord) (m0 : List (Nat × β)),
      ((l.foldl (fun m r => dictUpd m r.user_uid (g r) d) m0).map (·.1))
        = m0.map (·.1) ++ newKeys (m0.map (·.1)) l
  | [], m0 => by simp [newKeys]
  | r :: rest, m0 => by
    simp only [List.foldl_cons]
    rw [foldl_dictUpd_keys g d rest (dictUpd m0 r.user_uid (g r) d)]
    by_cases hr : r.user_uid ∈ m0.map (·.1)
    · rw [dictUpd_keys_mem _ _ _ _ hr, newKeys_cons_mem _ _ _ hr]
    · rw [dictUpd_keys_new _ _ _ _ hr, newKeys_cons_not_mem _ _ _ hr]
      rw [newKeys_congr rest (m0.map (·.1) ++ [r.user_uid]) (r.user_uid :: m0.map (·.1))
        (by intro x; simp [or_comm])]
      simp [List.append_assoc]

lemma lookupD_foldl_count : ∀ (l : List BanRecord) (m0 : List (Nat × Nat)) (uid : Nat),
    lookupD (l.foldl (fun m r => dictUpd m r.user_uid (· + 1) 0) m0) uid 0
      = lookupD m0 uid 0 + (l.filter (fun r => r.user_uid == uid)).length
  | [], _, _ => by simp
  | r :: rest, m0, uid => by
    simp only [List.foldl_cons]
    rw [lookupD_foldl_count rest _ uid]
    by_cases hr : r.user_uid = uid
    · rw [show dictUpd m0 r.user_uid (· + 1) 0 = dictUpd m0 uid (· + 1) 0 from by rw [hr]]
      rw [lookupD_dictUpd_self]
      simp [List.filter_cons, hr]
      omega
    · rw [lookupD_dictUpd_ne _ _ _ _ _ (fun h => hr h.symm)]
      simp [List.filter_cons, hr]

lemma lookupD_foldl_hours : ∀ (l : List BanRecord) (m0 : List (Nat × Int)) (uid : Nat),
    lookupD (l.foldl (fun m r => dictUpd m r.user_uid (· + r.ban_hours) 0) m0) uid 0
      = lookupD m0 uid 0 + ((l.filter (fun r => r.user_uid == uid)).map (·.ban_hours)).sum
  | [], _, _ => by simp
  | r :: rest, m0, uid => by
    simp only [List.foldl_cons]
    rw [lookupD_foldl_hours rest _ uid]
    by_cases hr : r.user_uid = uid
    · rw [show dictUpd m0 r.user_uid (· + r.ban_hours) 0
          = dictUpd m0 uid (· + r.ban_hours) 0 from by rw [hr]]
      rw [lookupD_dictUpd_self]
      simp [List.filter_cons, hr]
      omega
    · rw [lookupD_dictUpd_ne _ _ _ _ _ (fun h => hr h.symm)]
      simp [List.filter_cons, hr]

lemma lookupD_of_mem_nodup {β : Type} : ∀ (m : List (Nat × β)) (k : Nat) (v d : β),
    (k, v) ∈ m → (m.map (·.1)).Nodup → lookupD m k d = v
  | [], _, _, _, h, _ => by simp at h
  | (k', v') :: rest, k, v, d, h, hn => by
    rcases List.mem_cons.mp h with h1 | h1
    · cases h1
      simp [lookupD]
    · simp only [List.map_cons, List.nodup_cons] at hn
      have hk : k' ≠ k := by
        intro hc
        exact hn.1 (hc ▸ List.mem_map.mpr ⟨(k, v), h1, rfl⟩)
      simp only [lookupD, if_neg hk]
      exact lookupD_of_mem_nodup rest k v d h1 hn.2

lemma pairwise_map_iff {α β : Type} (f : α → β) (R : β → β → Prop) :
    ∀ (l : List α), (l.map f).Pairwise R ↔ l.Pairwise (fun a b => R (f a) (f b))
  | [] => by simp
  | x :: l => by
    simp only [List.map_cons, List.pairwise_cons]
    constructor
    · rintro ⟨h1, h2⟩
      exact ⟨fun b hb => h1 (f b) (List.mem_map_of_mem f hb),
        (pairwise_map_iff f R l).mp h2⟩
    · rintro ⟨h1, h2⟩
      refine ⟨?_, (pairwise_map_iff f R l).mpr h2⟩
      intro b hb
      rcases List.mem_map.mp hb with ⟨a, ha, rfl⟩
      exact h1 a ha

lemma insertDesc_perm (x : RankEntry) : ∀ (l : List RankEntry),
    (insertDesc x l).Perm (x :: l)
  | [] => List.Perm.refl _
  | y :: l => by
    by_cases h : y.ban_count ≤ x.ban_count
    · simp only [insertDesc, if_pos h]
      exact List.Perm.refl _
    · simp only [insertDesc, if_neg h]
      exact ((insertDesc_perm x l).cons y).trans (List.Perm.swap x y l)

lemma sortDesc_perm : ∀ (l : List RankEntry), (sortDesc l).Perm l
  | [] => List.Perm.refl _
  | x :: l => (insertDesc_perm x (sortDesc l)).trans ((sortDesc_perm l).cons x)

lemma insertDesc_pairwise (R : RankEntry → RankEntry → Prop) (x : RankEntry) :
    ∀ (l : List RankEntry),
      l.Pairwise (fun a b => a.ban_count > b.ban_count ∨
        (a.ban_count ≥ b.ban_count ∧ R a b)) →
      (∀ y ∈ l, R x y) →
      (insertDesc x l).Pairwise (fun a b => a.ban_count > b.ban_count ∨
        (a.ban_count ≥ b.ban_count ∧ R a b))
  | [], _, _ => by simp [insertDesc]
  | y :: l, hl, hx => by
    rcases List.pairwise_cons.mp hl with ⟨hy, hl'⟩
    by_cases h : y.ban_count ≤ x.ban_count
    · simp only [insertDesc, if_pos h]
      refine List.pairwise_cons.mpr ⟨?_, hl⟩
      intro z hz
      rcases List.mem_cons.mp hz with h1 | h1
      · rw [h1]
        exact Or.inr ⟨h, hx y (List.mem_cons_self y l)⟩
      · have hyz := hy z h1
        have hcc : z.ban_count ≤ x.ban_count := by
          rcases hyz with h2 | h2
          · omega
          · have := h2.1
            omega
        exact Or.inr ⟨hcc, hx z (List.mem_cons.mpr (Or.inr h1))⟩
    · simp only [insertDesc, if_neg h]
      refine List.pairwise_cons.mpr
        ⟨?_, insertDesc_pairwise R x l hl' (fun z hz => hx z (List.mem_cons.mpr (Or.inr hz)))⟩
      intro z hz
      have hz' := (insertDesc_perm x l).mem_iff.mp hz
      rcases List.mem_cons.mp hz' with h1 | h1
      · rw [h1]
        exact Or.inl (by omega)
      · exact hy z h1

lemma sortDesc_pairwise (R : RankEntry → RankEntry → Prop) :
    ∀ (l : List RankEntry), l.Pairwise R →
      (sortDesc l).Pairwise (fun a b => a.ban_count > b.ban_count ∨
        (a.ban_count ≥ b.ban_count ∧ R a b))
  | [], _ => by simp [sortDesc]
  | x :: l, hl => by
    rcases List.pairwise_cons.mp hl with ⟨hx, hl'⟩
    simp only [sortDesc]
    refine insertDesc_pairwise R x (sortDesc l) (sortDesc_pairwise R l hl') ?_
    intro y hy
    exact hx y ((sortDesc_perm l).mem_iff.mp hy)

/-- C9: `get_ban_ranking` aggregates the history per identity into a ban
count (number of records) and cumulative hours (sum of `ban_hours`), orders
entries by ban count descending with ties broken by first-seen order in the
history log (the stable sort preserves the dict's first-seen key order), and
on the scenario history (U with 3 records, V with 5) `limit = 1` returns V
first. -/
theorem ranking_orders_by_count :
    (∀ (hist : List BanRecord) (limit : Nat),
      (∀ e ∈ get_ban_ranking hist limit,
        e.ban_count = (hist.filter (fun r => r.user_uid == e.user_uid)).length ∧
        e.total_hours
          = ((hist.filter (fun r => r.user_uid == e.user_uid)).map (·.ban_hours)).sum) ∧
      (get_ban_ranking hist limit).Pairwise (fun a b =>
        a.ban_count > b.ban_count ∨
        (a.ban_count = b.ban_count ∧
          firstIdx hist a.user_uid < firstIdx hist b.user_uid))) ∧
    get_ban_ranking exHist9 1
      = [{ user_uid := 2, user_name := "V", ban_count := 5, total_hours := 10,
           last_ban_time := 7 }] := by
  refine ⟨?_, by decide⟩
  intro hist limit
  have hkeys : (banCounts hist).map (·.1) = newKeys [] hist := by
    have := foldl_dictUpd_keys (fun _ => (· + 1)) 0 hist []
    simpa [banCounts] using this
  have hnodup : ((banCounts hist).map (·.1)).Nodup := by
    rw [hkeys]
    exact newKeys_nodup hist []
  constructor
  · intro e he
    have he1 : e ∈ sortDesc ((banCounts hist).map (rankEntryOf hist)) :=
      (List.take_sublist _ _).subset he
    have he2 := (sortDesc_perm _).mem_iff.mp he1
    rcases List.mem_map.mp he2 with ⟨p, hp, hpe⟩
    subst hpe
    have hcount : p.2 = (hist.filter (fun r => r.user_uid == p.1)).length := by
      have hl := lookupD_of_mem_nodup (banCounts hist) p.1 p.2 0 ?_ hnodup
      · have hc := lookupD_foldl_count hist [] p.1
        simp only [banCounts] at hl
        rw [hl] at hc
        simpa [lookupD] using hc
      · exact hp
    have hhours : lookupD (banHours hist) p.1 0
        = ((hist.filter (fun r => r.user_uid == p.1)).map (·.ban_hours)).sum := by
      have hc := lookupD_foldl_hours hist [] p.1
      simpa [banHours, lookupD] using hc
    exact ⟨hcount, hhours⟩
  · have hp0 : (newKeys [] hist).Pairwise (fun u v => firstIdx hist u < firstIdx hist v) :=
      newKeys_pairwise hist []
    have hp1 : ((banCounts hist).map (·.1)).Pairwise
        (fun u v => firstIdx hist u < firstIdx hist v) := by
      rw [hkeys]
      exact hp0
    have hp2 : (banCounts hist).Pairwise
        (fun p q => firstIdx hist p.1 < firstIdx hist q.1) :=
      (pairwise_map_iff (·.1) (fun u v => firstIdx hist u < firstIdx hist v)
        (banCounts hist)).mp hp1
    have hp3 : ((banCounts hist).map (rankEntryOf hist)).Pairwise
        (fun a b => firstIdx hist a.user_uid < firstIdx hist b.user_uid) :=
      (pairwise_map_iff (rankEntryOf hist)
        (fun a b => firstIdx hist a.user_uid < firstIdx hist b.user_uid)
        (banCounts hist)).mpr hp2
    have hp4 := sortDesc_pairwise
      (fun a b => firstIdx hist a.user_uid < firstIdx hist b.user_uid) _ hp3
    have hp5 := hp4.sublist (List.take_sublist limit _)
    refine hp5.imp ?_
    intro a b hab
    rcases hab with h1 | h1
    · exact Or.inl h1
    · by_cases heq : a.ban_count = b.ban_count
      · exact Or.inr ⟨heq, h1.2⟩
      · exact Or.inl (by omega)

/-- Concrete instantiation of `ranking_orders_by_count`: the top entry of the
scenario ranking is V with count 5 equal to the number of V records. -/
theorem ranking_orders_by_count_w :
    (⟨2, "V", 5, 10, 7⟩ : RankEntry) ∈ get_ban_ranking exHist9 1 ∧
    (⟨2, "V", 5, 10, 7⟩ : RankEntry).ban_count
      = (exHist9.filter (fun r => r.user_uid
          == (⟨2, "V", 5, 10, 7⟩ : RankEntry).user_uid)).length :=
  ⟨by decide,
   ((ranking_orders_by_count.1 exHist9 1).1 ⟨2, "V", 5, 10, 7⟩ (by decide)).1⟩

end BiliShield
